import Mathlib

/-!
ec2-ls-hosts: option resolution and field projection.

A shallow embedding of `main.go` (option layering, filter and field string
parsing) and of `client/client.go` (`FieldNames`, `Describe`, `formatInstance`),
with the properties of the specification stated over it.

Go strings are lists of characters.  A Go `map[string]string` is an
association list whose keys are pairwise distinct; only lookups and the key
set are observable, the order of the entries is not.
-/

namespace Ec2LsHosts

/-- A Go string, as its sequence of characters. -/
abbrev Str := List Char

/-! ## The parts of the Go standard library the program calls -/

/-- Go `strings.Split(s, sep)` for a one-character separator: all the segments
of `s` between occurrences of `sep`; the empty string gives one empty segment. -/
def Split (s : Str) (sep : Char) : List Str :=
  s.splitOn sep

/-- Go `strings.Join(elems, sep)`. -/
def Join (elems : List Str) (sep : Str) : Str :=
  sep.intercalate elems

/-- A Go `map[string]string`. -/
abbrev GoMap := List (Str × Str)

/-- The lookup `v, ok := m[k]`. -/
def GoMap.get? : GoMap → Str → Option Str
  | [], _ => none
  | (k', v) :: m, k => if k = k' then some v else GoMap.get? m k

/-- The assignment `m[k] = v`: an earlier entry for `k` is replaced. -/
def GoMap.set (m : GoMap) (k v : Str) : GoMap :=
  (k, v) :: m.filter (fun e => decide (e.1 ≠ k))

/-- The keys of a map. -/
def GoMap.keys (m : GoMap) : List Str :=
  m.map Prod.fst

/-! ## main.go -/

/-- The body of the loop of `parseFilterString`, for one comma-separated entry. -/
def parseFilterEntry (filters : GoMap) (kv : Str) : GoMap :=
  let a := Split kv ':'
  if a.length > 1 then
    let v := a.drop 1
    filters.set (a.headD []) (Join v ":".toList)
  else
    filters

/-- Source `parseFilterString` (main.go:39-49). -/
def parseFilterString (s : Str) : GoMap :=
  (Split s ',').foldl parseFilterEntry []

/-- Source `parseFieldsString` (main.go:52-58); a nil slice is the empty list. -/
def parseFieldsString (str : Str) : List Str :=
  (Split str ',').foldl (fun fields c => fields ++ [c]) []

/-- A loaded INI file (gopkg.in/ini.v1): its sections by name, each a list of
keys with their values.  The keys written before any section header are those
of the section named `DEFAULT`. -/
abbrev IniFile := List (Str × List (Str × Str))

/-- The keys of `f.Section(name)`: `GetSection` reads the empty name as
`DEFAULT`; a section the file does not hold is created empty. -/
def IniFile.sectionKeys (cfg : IniFile) (name : Str) : List (Str × Str) :=
  (cfg.lookup (if name = [] then "DEFAULT".toList else name)).getD []

/-- The section names the loop of `Section.GetKey` goes through for a key the
section `sname` does not hold: `sname[:i]` for the last `.` of `sname` at `i`,
then the same of that name, until no `.` is left; nearest parent first. -/
def parentSections (sname : Str) : List Str :=
  (List.range ((Split sname '.').length - 1)).reverse.map
    (fun n => Join ((Split sname '.').take (n + 1)) ".".toList)

/-- The call chain `cfg.Section(sec).Key(key).Value()`.  `GetKey` reads the key
in the section itself and otherwise in its parent sections, the nearest one
that holds the key first (a parent the file lacks is skipped, one it holds
continues the walk from its own name); a key found nowhere is created with the
empty value. -/
def IniFile.value (cfg : IniFile) (sec key : Str) : Str :=
  ((sec :: parentSections sec).findSome?
    (fun sname => (cfg.sectionKeys sname).lookup key)).getD []

/-! ## client/client.go -/

/-- Source `defaultFields` (client.go:22-30). -/
def defaultFields : List Str :=
  ["tag:Name".toList, "instance-id".toList, "private-ip".toList, "public-ip".toList,
    "instance-state".toList]

/-- Source `Options` (client.go:32-40); a nil `Fields` slice is the empty list. -/
structure Options where
  Profile : Str
  Filters : GoMap
  TagFilters : GoMap
  Fields : List Str
  Region : Str
  Credentials : Str
  Noheader : Bool
deriving DecidableEq, Repr

/-- Source `NewOptions` (client.go:42-47): zero values and two empty maps. -/
def NewOptions : Options :=
  { Profile := [], Filters := [], TagFilters := [], Fields := [], Region := [],
    Credentials := [], Noheader := false }

/-- Source `Options.FieldNames` (client.go:49-54). -/
def Options.FieldNames (o : Options) : List Str :=
  if o.Fields.length > 1 then o.Fields else defaultFields

/-- The association of a private address with a public one (`PublicIp`). -/
structure InstancePrivateIpAddressAssociation where
  PublicIp : Str
deriving DecidableEq, Repr

/-- One private address of a network interface; `Association` may be nil. -/
structure InstancePrivateIpAddress where
  PrivateIpAddress : Str
  Association : Option InstancePrivateIpAddressAssociation
deriving DecidableEq, Repr

/-- A network interface of an instance. -/
structure InstanceNetworkInterface where
  PrivateIpAddresses : List InstancePrivateIpAddress
deriving DecidableEq, Repr

/-- A key/value tag of an instance. -/
structure Tag where
  Key : Str
  Value : Str
deriving DecidableEq, Repr

/-- The lifecycle state of an instance; the pointer `Name` may be nil. -/
structure InstanceState where
  Name : Option Str
deriving DecidableEq, Repr

/-- A `time.Time`, kept as the text its `String()` method renders. -/
structure Time where
  String : Str
deriving DecidableEq, Repr

/-- The provider's instance record, with the fields the program reads.  The
pointers dereferenced only when a field asks for them (`InstanceId`,
`LaunchTime`, `State`, `State.Name`) are optional; the elements of the
interface, address and tag lists, dereferenced on every call, are taken as the
provider fills them. -/
structure Instance where
  InstanceId : Option Str
  LaunchTime : Option Time
  NetworkInterfaces : List InstanceNetworkInterface
  State : Option InstanceState
  Tags : List Tag
deriving DecidableEq, Repr

/-- The inner loop of client.go:118-124 over the addresses of one interface,
on the pair `(privateIps, publicIps)`; it stops at the `break`. -/
def fetchNicIps : List InstancePrivateIpAddress → List Str × List Str → List Str × List Str
  | [], ips => ips
  | privateIp :: rest, (privateIps, publicIps) =>
    match privateIp.Association with
    | some assoc =>
      (privateIps ++ [privateIp.PrivateIpAddress], publicIps ++ [assoc.PublicIp])
    | none => fetchNicIps rest (privateIps ++ [privateIp.PrivateIpAddress], publicIps)

/-- The loop of client.go:115-125: the pair `(privateIps, publicIps)`. -/
def fetchIps (nics : List InstanceNetworkInterface) : List Str × List Str :=
  nics.foldl (fun ips nic => fetchNicIps nic.PrivateIpAddresses ips) ([], [])

/-- The loop of client.go:129-132: the map `tags`. -/
def fetchTags (tags : List Tag) : GoMap :=
  tags.foldl (fun m tag => m.set tag.Key tag.Value) []

/-- Whether `tag:.+` matches at the very start of `s`: the four characters
`tag:` and then a character that is not a newline. -/
def tagPatternHere (s : Str) : Bool :=
  "tag:".toList.isPrefixOf s && (s.drop 4).head?.any (fun x => x != '\n')

/-- Go `regexp.Match("tag:.+", []byte(c))` (client.go:149): the pattern is not
anchored, so it may match anywhere in `c`, and `.` matches any character but
the newline.  The pattern compiles, so the returned error is always nil. -/
def regexpMatchTag : Str → Bool
  | [] => false
  | x :: xs => tagPatternHere (x :: xs) || regexpMatchTag xs

/-- One iteration of the loop of client.go:135-158: `values` after the field
`c`.  The result is `none` when the iteration dereferences a nil pointer. -/
def formatField (inst : Instance) (privateIps publicIps : List Str) (tags : GoMap)
    (values : List Str) (c : Str) : Option (List Str) :=
  if c = "instance-id".toList then
    inst.InstanceId.map (fun id => values ++ [id])
  else if c = "private-ip".toList then
    some (values ++ [Join privateIps ",".toList])
  else if c = "public-ip".toList then
    some (values ++ [Join publicIps ",".toList])
  else if c = "launch-time".toList then
    inst.LaunchTime.map (fun t => values ++ [t.String])
  else if c = "instance-state".toList then
    (inst.State.bind (fun st => st.Name)).map (fun name => values ++ [name])
  else if regexpMatchTag c then
    let kv := Split c ':'
    let key := Join (kv.drop 1) ":".toList
    match tags.get? key with
    | some v => some (values ++ [v])
    | none => some values
  else
    some values

/-- Source `formatInstance` (client.go:113-161); `none` is the run-time panic
of a nil dereference. -/
def formatInstance (inst : Instance) (fields : List Str) : Option (List Str) :=
  let ips := fetchIps inst.NetworkInterfaces
  let tags := fetchTags inst.Tags
  fields.foldlM (formatField inst ips.1 ips.2 tags) []

/-! ## client/client.go: `Describe` -/

/-- A filter term of the request (`ec2.Filter`): a name and its values. -/
structure Filter where
  Name : Str
  Values : List Str
deriving DecidableEq, Repr

/-- The request of the describe call, with the field the program sets. -/
structure DescribeInstancesInput where
  Filters : List Filter
deriving DecidableEq, Repr

/-- A reservation of the response: its instances. -/
structure Reservation where
  Instances : List Instance
deriving DecidableEq, Repr

/-- The response of the describe call. -/
structure DescribeInstancesOutput where
  Reservations : List Reservation
deriving DecidableEq, Repr

/-- The credentials `creds.SelectCredentials` resolves; their content is not read. -/
structure Credentials where
  name : Str
deriving DecidableEq, Repr

/-- What `Describe` calls outside of client.go.  An `error` is kept as its message.
`SelectCredentials` is `creds.SelectCredentials(source, profile)`;
`DescribeInstances` is the provider call, for a region, credentials and a
request; `ToUpper` is Go `strings.ToUpper`; `rangeOrder m` is the order in
which a `range` over the map `m` visits its entries, some permutation of them. -/
structure Runtime where
  SelectCredentials : Str → Str → Except Str Credentials
  DescribeInstances : Str → Credentials → DescribeInstancesInput →
    Except Str DescribeInstancesOutput
  ToUpper : Str → Str
  rangeOrder : GoMap → List (Str × Str)
  rangeOrder_perm : ∀ m : GoMap, (rangeOrder m).Perm m

/-- Source `namesToUpper` (client.go:56-62). -/
def namesToUpper (rt : Runtime) (strs : List Str) : List Str :=
  strs.map rt.ToUpper

/-- The request built at client.go:75-87: one term per entry of `Filters`, then
one term per entry of `TagFilters` with `tag:` before the key. -/
def describeInput (rt : Runtime) (o : Options) : DescribeInstancesInput :=
  let options : DescribeInstancesInput := { Filters := [] }
  let options := (rt.rangeOrder o.Filters).foldl
    (fun (options : DescribeInstancesInput) kv =>
      { options with Filters := options.Filters ++ [{ Name := kv.1, Values := [kv.2] }] })
    options
  (rt.rangeOrder o.TagFilters).foldl
    (fun (options : DescribeInstancesInput) kv =>
      { options with
        Filters := options.Filters ++ [{ Name := "tag:".toList ++ kv.1, Values := [kv.2] }] })
    options

/-- How a call of `Describe` ends: it returns an error value (`none` for nil),
or a nil dereference in `formatInstance` panics. -/
inductive Outcome where
  | returned (err : Option Str)
  | panicked
deriving DecidableEq, Repr

/-- What a call of `Describe` has done: the lines written to `w`, one for each
`fmt.Fprintln(w, ...)` in order, whether `w.Flush()` was reached, and how the
call ended. -/
structure Described where
  written : List Str
  flushed : Bool
  outcome : Outcome
deriving DecidableEq, Repr

/-- The inner loop of client.go:103-106 over the instances of one reservation:
the lines written so far, `Except.error` when a projection panics. -/
def writeInstances (fields : List Str) (w : List Str) :
    List Instance → Except (List Str) (List Str)
  | [] => Except.ok w
  | inst :: rest =>
    match formatInstance inst fields with
    | some values => writeInstances fields (w ++ [Join values "\t".toList]) rest
    | none => Except.error w

/-- The outer loop of client.go:102-107 over the reservations. -/
def writeReservations (fields : List Str) (w : List Str) :
    List Reservation → Except (List Str) (List Str)
  | [] => Except.ok w
  | r :: rest =>
    match writeInstances fields w r.Instances with
    | Except.ok w' => writeReservations fields w' rest
    | Except.error w' => Except.error w'

/-- Source `Describe` (client.go:64-111). -/
def Describe (rt : Runtime) (o : Options) : Described :=
  match rt.SelectCredentials o.Credentials o.Profile with
  | Except.error err => { written := [], flushed := false, outcome := Outcome.returned (some err) }
  | Except.ok credentials =>
    match rt.DescribeInstances o.Region credentials (describeInput rt o) with
    | Except.error err =>
      { written := [], flushed := false, outcome := Outcome.returned (some err) }
    | Except.ok resp =>
      if resp.Reservations.length = 0 then
        { written := [], flushed := false,
          outcome := Outcome.returned (some "Not Found".toList) }
      else
        let w : List Str :=
          if o.Noheader = false then [Join (namesToUpper rt o.FieldNames) "\t".toList] else []
        match writeReservations o.FieldNames w resp.Reservations with
        | Except.ok w' => { written := w', flushed := true, outcome := Outcome.returned none }
        | Except.error w' => { written := w', flushed := false, outcome := Outcome.panicked }

/-! ## main.go: option layering -/

/-- Source `optionsFromFile` (main.go:60-71); `cfg` is `none` when `loadConfig`
returns an error. -/
def optionsFromFile (cfg : Option IniFile) : Options :=
  let opt := NewOptions
  match cfg with
  | some cfg =>
    { opt with
      Profile := cfg.value "options".toList "profile".toList
      Region := cfg.value "options".toList "region".toList
      TagFilters := parseFilterString (cfg.value "options".toList "tags".toList)
      Fields := parseFieldsString (cfg.value "options".toList "fields".toList)
      Credentials := cfg.value "options".toList "creds".toList
      Noheader := decide (cfg.value "options".toList "noheader".toList = "true".toList) }
  | none => opt

/-- Source `loadRegionInAwsConfig` (main.go:19-25); `awsCfg` is what
`creds.LoadAwsConfig` returns, `none` for an error. -/
def loadRegionInAwsConfig (awsCfg : Option IniFile) (profile : Str) : Str :=
  match awsCfg with
  | some cfg => cfg.value profile "region".toList
  | none => []

/-- The command line: for each flag the value supplied, `none` when the flag
does not occur. -/
structure CmdLine where
  profile : Option Str
  filters : Option Str
  tags : Option Str
  fields : Option Str
  region : Option Str
  creds : Option Str
  noheader : Option Bool
  v : Option Bool
deriving DecidableEq, Repr

/-- The value behind the pointer a `flag.String` or `flag.Bool` call returns,
after `flag.Parse()`: the supplied value, else the default of the flag. -/
def flagValue {α : Type} (dflt : α) (supplied : Option α) : α :=
  supplied.getD dflt

/-- The loop `for k, v := range src { dst[k] = v }` of main.go:103-105 and
108-110; the entries of `src` have distinct keys, so their order is immaterial. -/
def mergeInto (dst src : GoMap) : GoMap :=
  src.foldl (fun m e => m.set e.1 e.2) dst

/-- Source `main` (main.go:79-122), up to the call of `client.Describe`: the
options handed to `Describe`, or `none` when `-v` prints the version and exits. -/
def main (cmd : CmdLine) (cfg awsCfg : Option IniFile) : Option Options :=
  let profile := flagValue "default".toList cmd.profile
  let filters := flagValue [] cmd.filters
  let tagFilters := flagValue [] cmd.tags
  let fields := flagValue [] cmd.fields
  let regionString := flagValue [] cmd.region
  let credsString := flagValue [] cmd.creds
  let noheader := flagValue false cmd.noheader
  let v := flagValue false cmd.v
  if v then none
  else
    let opt := optionsFromFile cfg
    let opt := { opt with Profile := profile }
    let awsConfigRegion := loadRegionInAwsConfig awsCfg opt.Profile
    let opt := if awsConfigRegion ≠ [] then { opt with Region := awsConfigRegion } else opt
    let opt := if filters ≠ [] then
      { opt with Filters := mergeInto opt.Filters (parseFilterString filters) } else opt
    let opt := if tagFilters ≠ [] then
      { opt with TagFilters := mergeInto opt.TagFilters (parseFilterString tagFilters) } else opt
    let opt := if fields ≠ [] then { opt with Fields := parseFieldsString fields } else opt
    let opt := if regionString ≠ [] then { opt with Region := regionString } else opt
    let opt := if credsString ≠ [] then { opt with Credentials := credsString } else opt
    some { opt with Noheader := opt.Noheader || noheader }

/-! ## The vocabulary of the specification -/

/-- In the words of the specification: all private IPs across all network
interfaces, in interface-then-address order. -/
def allPrivateIps (inst : Instance) : List Str :=
  inst.NetworkInterfaces.flatMap
    (fun nic => nic.PrivateIpAddresses.map (fun a => a.PrivateIpAddress))

/-- In the words of the specification: all the public IPs associated with the
private addresses of the instance, in interface-then-address order. -/
def allPublicIps (inst : Instance) : List Str :=
  inst.NetworkInterfaces.flatMap
    (fun nic => nic.PrivateIpAddresses.filterMap
      (fun a => a.Association.map (fun assoc => assoc.PublicIp)))

/-- In the words of the specification: the public IP of the first private
address of the interface that has an association, if there is one. -/
def firstPublicIp (nic : InstanceNetworkInterface) : Option Str :=
  (nic.PrivateIpAddresses.find? (fun a => a.Association.isSome)).bind
    (fun a => a.Association.map (fun assoc => assoc.PublicIp))

/-- What the file itself holds for a key under a section header: the value
written there, the empty string when the section or the key is absent. -/
def IniFile.stored (cfg : IniFile) (sec key : Str) : Str :=
  (((cfg.lookup sec).getD []).lookup key).getD []

/-- The value of a key of the `[options]` section of the config file, the empty
string when no config file could be loaded. -/
def configValue (cfg : Option IniFile) (key : Str) : Str :=
  match cfg with
  | some cfg => cfg.stored "options".toList key
  | none => []

/-- All the instances of a response: reservation order, then instance order
within the reservation. -/
def allInstances (resp : DescribeInstancesOutput) : List Instance :=
  resp.Reservations.flatMap (fun r => r.Instances)

/-- A runtime whose credentials always resolve, whose provider answers every
request with `resp`, with the upper-casing of ASCII letters and maps visited
in the order of their entries. -/
def runtimeAnswering (resp : DescribeInstancesOutput) : Runtime :=
  { SelectCredentials := fun _ profile => Except.ok ⟨profile⟩
    DescribeInstances := fun _ _ _ => Except.ok resp
    ToUpper := fun s => s.map Char.toUpper
    rangeOrder := fun m => m
    rangeOrder_perm := fun m => List.Perm.refl m }

/-- A response of two reservations: the instance named `web-1`, then the
instance with two interfaces. -/
def responseTwoReservations : DescribeInstancesOutput :=
  { Reservations :=
      [{ Instances :=
          [{ InstanceId := some "i-1".toList
             LaunchTime := some ⟨"2020-01-01 00:00:00 +0000 UTC".toList⟩
             NetworkInterfaces := []
             State := some ⟨some "running".toList⟩
             Tags := [⟨"Name".toList, "web-1".toList⟩] }] },
       { Instances :=
          [{ InstanceId := some "i-2".toList
             LaunchTime := some ⟨"2020-01-01 00:00:00 +0000 UTC".toList⟩
             NetworkInterfaces :=
               [⟨[⟨"ip1".toList, some ⟨"pub1".toList⟩⟩]⟩, ⟨[⟨"ip2".toList, some ⟨"pub2".toList⟩⟩]⟩]
             State := some ⟨some "running".toList⟩
             Tags := [] }] }] }

/-- An instance whose tag list holds the key `Name` twice, with the values
`old` and then `new`. -/
def instanceNameTwice : Instance :=
  { InstanceId := some "i-1".toList
    LaunchTime := some ⟨"2020-01-01 00:00:00 +0000 UTC".toList⟩
    NetworkInterfaces := []
    State := some ⟨some "running".toList⟩
    Tags := [⟨"Name".toList, "old".toList⟩, ⟨"Name".toList, "new".toList⟩] }

/-- An instance whose tag list holds the empty key twice. -/
def instanceEmptyKeyTwice : Instance :=
  { InstanceId := some "i-1".toList
    LaunchTime := some ⟨"2020-01-01 00:00:00 +0000 UTC".toList⟩
    NetworkInterfaces := []
    State := some ⟨some "running".toList⟩
    Tags := [⟨[], "a".toList⟩, ⟨[], "b".toList⟩] }

/-- An instance whose tag list holds twice a key that starts with a line break. -/
def instanceNewlineKeyTwice : Instance :=
  { InstanceId := some "i-1".toList
    LaunchTime := some ⟨"2020-01-01 00:00:00 +0000 UTC".toList⟩
    NetworkInterfaces := []
    State := some ⟨some "running".toList⟩
    Tags := [⟨"\nx".toList, "a".toList⟩, ⟨"\nx".toList, "b".toList⟩] }

/-- A command line without any flag. -/
def noFlags : CmdLine :=
  { profile := none, filters := none, tags := none, fields := none, region := none,
    creds := none, noheader := none, v := none }

/-- A config file whose `[options]` section sets `region`, `tags` and `noheader`. -/
def configSample : IniFile :=
  [("options".toList,
    [("region".toList, "eu-west-1".toList), ("tags".toList, "a:1,b:2".toList),
      ("noheader".toList, "true".toList)])]

/-- A runtime whose credentials always resolve and whose provider refuses every
request with an error that names the filter terms it received, each as
`name=value`, joined by `,`; maps are visited in the order of their entries. -/
def runtimeRefusing : Runtime :=
  { SelectCredentials := fun _ _ => Except.ok ⟨[]⟩
    DescribeInstances := fun _ _ input =>
      Except.error (Join
        (input.Filters.map (fun f => f.Name ++ "=".toList ++ Join f.Values "|".toList))
        ",".toList)
    ToUpper := fun s => s.map Char.toUpper
    rangeOrder := fun m => m
    rangeOrder_perm := fun m => List.Perm.refl m }

/-- The five fixed keywords of a field specification. -/
def isKeyword (c : Str) : Bool :=
  decide (c ∈ ["instance-id".toList, "private-ip".toList, "public-ip".toList,
    "launch-time".toList, "instance-state".toList])

/-- A tag reference `tag:<key>`: the literal `tag:` at the start of the name,
followed by at least one character. -/
def isTagField (c : Str) : Bool :=
  "tag:".toList.isPrefixOf c && decide (c.length > 4)

/-- The private addresses the loop of client.go:118-124 collects from one
interface: those up to and including the first one with an association. -/
def privateIpsUpToAssociation : List InstancePrivateIpAddress → List Str
  | [] => []
  | a :: rest =>
    a.PrivateIpAddress :: (if a.Association.isSome then [] else privateIpsUpToAssociation rest)

/-- An instance with one interface of two private addresses, the first of which
has a public IP. -/
def instanceTwoAddresses : Instance :=
  { InstanceId := some "i-1".toList
    LaunchTime := some ⟨"2020-01-01 00:00:00 +0000 UTC".toList⟩
    NetworkInterfaces :=
      [⟨[⟨"10.0.0.1".toList, some ⟨"1.2.3.4".toList⟩⟩, ⟨"10.0.0.2".toList, none⟩]⟩]
    State := some ⟨some "running".toList⟩
    Tags := [] }

/-- An instance with the single tag `Name` = `web-1` and no interface. -/
def instanceNamed : Instance :=
  { InstanceId := some "i-1".toList
    LaunchTime := some ⟨"2020-01-01 00:00:00 +0000 UTC".toList⟩
    NetworkInterfaces := []
    State := some ⟨some "running".toList⟩
    Tags := [⟨"Name".toList, "web-1".toList⟩] }

/-- An instance whose single tag has a key that starts with a line break. -/
def instanceNewlineKey : Instance :=
  { InstanceId := some "i-1".toList
    LaunchTime := some ⟨"2020-01-01 00:00:00 +0000 UTC".toList⟩
    NetworkInterfaces := []
    State := some ⟨some "running".toList⟩
    Tags := [⟨"\nx".toList, "v".toList⟩] }

/-- An instance with two interfaces, each of one private address with a public IP. -/
def instanceTwoInterfaces : Instance :=
  { InstanceId := some "i-1".toList
    LaunchTime := some ⟨"2020-01-01 00:00:00 +0000 UTC".toList⟩
    NetworkInterfaces :=
      [⟨[⟨"ip1".toList, some ⟨"pub1".toList⟩⟩]⟩, ⟨[⟨"ip2".toList, some ⟨"pub2".toList⟩⟩]⟩]
    State := some ⟨some "running".toList⟩
    Tags := [] }

/-! ## Lemmas on `Split` and `Join` -/

theorem Split_ne_nil (s : Str) (sep : Char) : Split s sep ≠ [] :=
  List.splitOnP_ne_nil _ s

theorem Split_nil (sep : Char) : Split [] sep = [[]] := rfl

theorem Split_cons (x : Char) (xs : Str) (sep : Char) :
    Split (x :: xs) sep =
      if x = sep then [] :: Split xs sep else (Split xs sep).modifyHead (List.cons x) := by
  simp [Split, List.splitOn, List.splitOnP_cons]

theorem Split_of_not_mem (s : Str) (sep : Char) (h : sep ∉ s) : Split s sep = [s] := by
  unfold Split List.splitOn
  apply List.splitOnP_eq_single
  intro x hx hxs
  rw [beq_iff_eq] at hxs
  exact h (hxs ▸ hx)

theorem Split_append_sep (k v : Str) (sep : Char) (h : sep ∉ k) :
    Split (k ++ sep :: v) sep = k :: Split v sep := by
  unfold Split List.splitOn
  apply List.splitOnP_first
  · intro x hx hxs
    rw [beq_iff_eq] at hxs
    exact h (hxs ▸ hx)
  · simp

theorem Join_Split (s : Str) (sep : Char) : Join (Split s sep) [sep] = s :=
  List.intercalate_splitOn s sep

theorem Split_Join (ls : List Str) (sep : Char) (hx : ∀ l ∈ ls, sep ∉ l) (hls : ls ≠ []) :
    Split (Join ls [sep]) sep = ls :=
  List.splitOn_intercalate ls sep hx hls

/-- The first segment is what precedes the first separator. -/
theorem Split_headD (s : Str) (sep : Char) :
    (Split s sep).headD [] = s.takeWhile (fun c => decide (c ≠ sep)) := by
  induction s with
  | nil => rfl
  | cons x xs ih =>
    rw [Split_cons]
    by_cases hx : x = sep
    · simp [hx]
    · have hne := Split_ne_nil xs sep
      cases hs : Split xs sep with
      | nil => exact absurd hs hne
      | cons seg rest =>
        rw [hs] at ih
        simp only [List.headD_cons] at ih
        simp [hx, List.takeWhile_cons, ih]

/-- There is more than one segment exactly when the separator occurs. -/
theorem Split_length_gt_one (s : Str) (sep : Char) :
    (Split s sep).length > 1 ↔ sep ∈ s := by
  induction s with
  | nil => simp [Split_nil]
  | cons x xs ih =>
    rw [Split_cons]
    by_cases hx : x = sep
    · have hne := Split_ne_nil xs sep
      have : 0 < (Split xs sep).length := List.length_pos.mpr hne
      simp [hx]
      omega
    · have hne : ¬ sep = x := fun h => hx h.symm
      cases hs : Split xs sep with
      | nil => exact absurd hs (Split_ne_nil xs sep)
      | cons seg rest =>
        rw [hs] at ih
        simp only [List.length_cons] at ih
        simp [hx, hne, ← ih]

/-! ## Lemmas on maps -/

theorem GoMap.get?_filter_ne (m : GoMap) (k k' : Str) (h : k' ≠ k) :
    GoMap.get? (m.filter (fun e => decide (e.1 ≠ k))) k' = GoMap.get? m k' := by
  induction m with
  | nil => rfl
  | cons e m ih =>
    obtain ⟨a, b⟩ := e
    by_cases ha : a = k
    · subst ha
      rw [List.filter_cons_of_neg (by simp), ih]
      simp [GoMap.get?, h]
    · rw [List.filter_cons_of_pos (by simpa using ha)]
      simp only [GoMap.get?, ih]

theorem GoMap.get?_set (m : GoMap) (k v k' : Str) :
    (m.set k v).get? k' = if k' = k then some v else m.get? k' := by
  unfold GoMap.set
  by_cases h : k' = k
  · simp [GoMap.get?, h]
  · simp only [GoMap.get?, h, if_false]
    exact GoMap.get?_filter_ne m k k' h

theorem GoMap.mem_keys_set (m : GoMap) (k v k' : Str) :
    k' ∈ (m.set k v).keys ↔ k' = k ∨ k' ∈ m.keys := by
  unfold GoMap.set GoMap.keys
  simp only [List.map_cons, List.mem_cons, List.mem_map, List.mem_filter, decide_eq_true_eq]
  constructor
  · rintro (h | ⟨e, ⟨he, _⟩, rfl⟩)
    · exact Or.inl h
    · exact Or.inr ⟨e, he, rfl⟩
  · rintro (h | ⟨e, he, rfl⟩)
    · exact Or.inl h
    · by_cases hk : e.1 = k
      · exact Or.inl hk
      · exact Or.inr ⟨e, ⟨he, hk⟩, rfl⟩

theorem GoMap.mem_keys_iff (m : GoMap) (k : Str) :
    k ∈ m.keys ↔ ∃ v, m.get? k = some v := by
  induction m with
  | nil => simp [GoMap.keys, GoMap.get?]
  | cons e m ih =>
    obtain ⟨a, b⟩ := e
    have ih' : k ∈ List.map Prod.fst m ↔ ∃ v, GoMap.get? m k = some v := ih
    by_cases h : k = a
    · simp [GoMap.keys, GoMap.get?, h]
    · simp [GoMap.keys, GoMap.get?, h, ih']

/-- A run of assignments leaves alone a key that none of them writes. -/
theorem foldl_set_get?_of_not_mem (ps : List (Str × Str)) (m : GoMap) (k : Str)
    (h : ∀ p ∈ ps, p.1 ≠ k) :
    (ps.foldl (fun m e => GoMap.set m e.1 e.2) m).get? k = m.get? k := by
  induction ps generalizing m with
  | nil => rfl
  | cons p ps ih =>
    rw [List.foldl_cons, ih _ (fun q hq => h q (List.mem_cons_of_mem _ hq)), GoMap.get?_set]
    have hp : ¬ k = p.1 := fun e => h p (List.mem_cons_self _ _) e.symm
    rw [if_neg hp]

/-- After a run of assignments a key holds the value written last. -/
theorem foldl_set_get?_last (pre post : List (Str × Str)) (m : GoMap) (k v : Str)
    (h : ∀ p ∈ post, p.1 ≠ k) :
    ((pre ++ (k, v) :: post).foldl (fun m e => GoMap.set m e.1 e.2) m).get? k = some v := by
  rw [List.foldl_append, List.foldl_cons, foldl_set_get?_of_not_mem post _ k h, GoMap.get?_set]
  simp

/-- With pairwise distinct keys every assignment of the run survives. -/
theorem foldl_set_get?_of_mem (ps : List (Str × Str)) (m : GoMap)
    (hnd : (ps.map Prod.fst).Nodup) (p : Str × Str) (hp : p ∈ ps) :
    (ps.foldl (fun m e => GoMap.set m e.1 e.2) m).get? p.1 = some p.2 := by
  obtain ⟨pre, post, rfl⟩ := List.append_of_mem hp
  apply foldl_set_get?_last
  intro q hq hqk
  rw [List.map_append, List.map_cons, List.nodup_append] at hnd
  have h2 := (List.nodup_cons.mp hnd.2.1).1
  exact h2 (hqk ▸ List.mem_map_of_mem Prod.fst hq)

/-! ## Lemmas on `parseFilterString` -/

theorem mem_of_mem_Split (s : Str) (sep : Char) (e : Str) (c : Char)
    (he : e ∈ Split s sep) (hc : c ∈ e) : c ∈ s := by
  induction s generalizing e with
  | nil =>
    rw [Split_nil, List.mem_singleton] at he
    subst he
    exact hc
  | cons x xs ih =>
    rw [Split_cons] at he
    by_cases hx : x = sep
    · rw [if_pos hx, List.mem_cons] at he
      rcases he with he | he
      · subst he
        exact absurd hc (List.not_mem_nil c)
      · exact List.mem_cons_of_mem _ (ih e he hc)
    · rw [if_neg hx] at he
      cases hs : Split xs sep with
      | nil => exact absurd hs (Split_ne_nil xs sep)
      | cons seg rest =>
        rw [hs] at he ih
        simp only [List.modifyHead_cons, List.mem_cons] at he
        rcases he with he | he
        · subst he
          rcases List.mem_cons.mp hc with hc | hc
          · exact hc ▸ List.mem_cons_self _ _
          · exact List.mem_cons_of_mem _ (ih seg (List.mem_cons_self _ _) hc)
        · exact List.mem_cons_of_mem _ (ih e (List.mem_cons_of_mem _ he) hc)

/-- An entry without a colon leaves the map as it is. -/
theorem parseFilterEntry_of_not_mem (m : GoMap) (e : Str) (h : ':' ∉ e) :
    parseFilterEntry m e = m := by
  have := (Split_length_gt_one e ':').not.mpr h
  simp [parseFilterEntry, this]

/-- An entry with a colon assigns what follows the first colon to what precedes it. -/
theorem parseFilterEntry_of_mem (m : GoMap) (e : Str) (h : ':' ∈ e) :
    parseFilterEntry m e =
      m.set (e.takeWhile (fun c => decide (c ≠ ':'))) (Join ((Split e ':').drop 1) [':']) := by
  have := (Split_length_gt_one e ':').mpr h
  simp only [parseFilterEntry, this, if_true, Split_headD]
  rfl

/-- The entry `k:v` assigns `v` to `k` when `k` has no colon. -/
theorem parseFilterEntry_pair (m : GoMap) (k v : Str) (hk : ':' ∉ k) :
    parseFilterEntry m (k ++ ":".toList ++ v) = m.set k v := by
  have hs : Split (k ++ ":".toList ++ v) ':' = k :: Split v ':' := by
    have := Split_append_sep k v ':' hk
    simpa using this
  have hpos : 0 < (Split v ':').length := List.length_pos.mpr (Split_ne_nil v ':')
  have hj : Join (Split v ':') ":".toList = v := Join_Split v ':'
  simp only [parseFilterEntry, hs, List.length_cons, List.headD_cons, List.drop_one,
    List.tail_cons, hj]
  rw [if_pos (by omega)]

theorem foldl_parseFilterEntry_keys (es : List Str) (m : GoMap) (k : Str) :
    k ∈ (es.foldl parseFilterEntry m).keys ↔
      k ∈ m.keys ∨ ∃ e ∈ es, ':' ∈ e ∧ k = e.takeWhile (fun c => decide (c ≠ ':')) := by
  induction es generalizing m with
  | nil => simp
  | cons e es ih =>
    rw [List.foldl_cons, ih]
    by_cases he : ':' ∈ e
    · rw [parseFilterEntry_of_mem m e he, GoMap.mem_keys_set]
      constructor
      · rintro ((h | h) | ⟨e', he', h⟩)
        · exact Or.inr ⟨e, List.mem_cons_self _ _, he, h⟩
        · exact Or.inl h
        · exact Or.inr ⟨e', List.mem_cons_of_mem _ he', h⟩
      · rintro (h | ⟨e', he', h⟩)
        · exact Or.inl (Or.inr h)
        · rcases List.mem_cons.mp he' with rfl | he'
          · exact Or.inl (Or.inl h.2)
          · exact Or.inr ⟨e', he', h⟩
    · rw [parseFilterEntry_of_not_mem m e he]
      constructor
      · rintro (h | ⟨e', he', h⟩)
        · exact Or.inl h
        · exact Or.inr ⟨e', List.mem_cons_of_mem _ he', h⟩
      · rintro (h | ⟨e', he', h⟩)
        · exact Or.inl h
        · rcases List.mem_cons.mp he' with rfl | he'
          · exact absurd h.1 he
          · exact Or.inr ⟨e', he', h⟩

theorem foldl_parseFilterEntry_pairs (ps : List (Str × Str)) (m : GoMap)
    (hk : ∀ p ∈ ps, ':' ∉ p.1) :
    (ps.map (fun p => p.1 ++ ":".toList ++ p.2)).foldl parseFilterEntry m =
      ps.foldl (fun m e => GoMap.set m e.1 e.2) m := by
  induction ps generalizing m with
  | nil => rfl
  | cons p ps ih =>
    rw [List.map_cons, List.foldl_cons, List.foldl_cons,
      parseFilterEntry_pair m p.1 p.2 (hk p (List.mem_cons_self _ _))]
    exact ih _ (fun q hq => hk q (List.mem_cons_of_mem _ hq))

/-! ## Lemmas on `formatInstance` -/

theorem fetchNicIps_eq (addrs : List InstancePrivateIpAddress) (privateIps publicIps : List Str) :
    fetchNicIps addrs (privateIps, publicIps) =
      (privateIps ++ privateIpsUpToAssociation addrs,
        publicIps ++ (firstPublicIp ⟨addrs⟩).toList) := by
  induction addrs generalizing privateIps publicIps with
  | nil => simp [fetchNicIps, privateIpsUpToAssociation, firstPublicIp]
  | cons a rest ih =>
    cases ha : a.Association with
    | none =>
      have ih' := ih (privateIps ++ [a.PrivateIpAddress]) publicIps
      simp only [firstPublicIp] at ih'
      simp [fetchNicIps, privateIpsUpToAssociation, firstPublicIp, ha, ih']
    | some assoc =>
      simp [fetchNicIps, privateIpsUpToAssociation, firstPublicIp, ha]

theorem foldl_fetchNicIps (nics : List InstanceNetworkInterface) (privateIps publicIps : List Str) :
    nics.foldl (fun ips nic => fetchNicIps nic.PrivateIpAddresses ips) (privateIps, publicIps) =
      (privateIps ++ nics.flatMap (fun nic => privateIpsUpToAssociation nic.PrivateIpAddresses),
        publicIps ++ nics.filterMap firstPublicIp) := by
  induction nics generalizing privateIps publicIps with
  | nil => simp
  | cons nic nics ih =>
    rw [List.foldl_cons, fetchNicIps_eq, ih]
    cases h : firstPublicIp nic <;> simp [h]

theorem fetchIps_eq (nics : List InstanceNetworkInterface) :
    fetchIps nics =
      (nics.flatMap (fun nic => privateIpsUpToAssociation nic.PrivateIpAddresses),
        nics.filterMap firstPublicIp) := by
  unfold fetchIps
  rw [foldl_fetchNicIps]
  simp

theorem fetchTags_eq (tags : List Tag) :
    fetchTags tags =
      (tags.map (fun t => (t.Key, t.Value))).foldl (fun m e => GoMap.set m e.1 e.2) [] := by
  unfold fetchTags
  rw [List.foldl_map]

/-- A one-field projection is one iteration of the loop from the empty row. -/
theorem formatInstance_single (inst : Instance) (c : Str) :
    formatInstance inst [c] =
      formatField inst (fetchIps inst.NetworkInterfaces).1 (fetchIps inst.NetworkInterfaces).2
        (fetchTags inst.Tags) [] c := by
  simp [formatInstance]

theorem formatField_private_ip (inst : Instance) (privateIps publicIps : List Str)
    (tags : GoMap) (values : List Str) :
    formatField inst privateIps publicIps tags values "private-ip".toList =
      some (values ++ [Join privateIps ",".toList]) := by
  unfold formatField
  rw [if_neg (by decide), if_pos rfl]

theorem formatField_public_ip (inst : Instance) (privateIps publicIps : List Str)
    (tags : GoMap) (values : List Str) :
    formatField inst privateIps publicIps tags values "public-ip".toList =
      some (values ++ [Join publicIps ",".toList]) := by
  unfold formatField
  rw [if_neg (by decide), if_neg (by decide), if_pos rfl]

theorem regexpMatchTag_tag (key : Str) (hne : key ≠ []) (hnl : key.head? ≠ some '\n') :
    regexpMatchTag ("tag:".toList ++ key) = true := by
  cases key with
  | nil => exact absurd rfl hne
  | cons x rest =>
    have hx : x ≠ '\n' := fun h => hnl (by simp [h])
    have hcons : "tag:".toList ++ x :: rest = 't' :: ("ag:".toList ++ x :: rest) := rfl
    rw [hcons, regexpMatchTag]
    simp [tagPatternHere, hx]

/-- The branch of the loop taken by a field `tag:<key>` whose key is not empty
and does not start with a newline. -/
theorem formatField_tag (inst : Instance) (privateIps publicIps : List Str) (tags : GoMap)
    (values : List Str) (key : Str) (hne : key ≠ []) (hnl : key.head? ≠ some '\n') :
    formatField inst privateIps publicIps tags values ("tag:".toList ++ key) =
      match tags.get? key with
      | some v => some (values ++ [v])
      | none => some values := by
  have hsplit : Split ("tag:".toList ++ key) ':' = "tag".toList :: Split key ':' :=
    Split_append_sep "tag".toList key ':' (by decide)
  have hjoin : Join (Split key ':') ":".toList = key := Join_Split key ':'
  unfold formatField
  rw [if_neg (by simp), if_neg (by simp), if_neg (by simp), if_neg (by simp), if_neg (by simp),
    if_pos (regexpMatchTag_tag key hne hnl)]
  simp only [hsplit, List.drop_one, List.tail_cons, hjoin]

/-! ## Lemmas on `main` -/

/-- The options `main` hands to `Describe` when `-v` is not set, field by field. -/
theorem main_eq (cmd : CmdLine) (cfg awsCfg : Option IniFile)
    (hv : flagValue false cmd.v = false) :
    main cmd cfg awsCfg = some
      { Profile := flagValue "default".toList cmd.profile
        Filters :=
          if flagValue [] cmd.filters ≠ [] then
            mergeInto (optionsFromFile cfg).Filters (parseFilterString (flagValue [] cmd.filters))
          else (optionsFromFile cfg).Filters
        TagFilters :=
          if flagValue [] cmd.tags ≠ [] then
            mergeInto (optionsFromFile cfg).TagFilters
              (parseFilterString (flagValue [] cmd.tags))
          else (optionsFromFile cfg).TagFilters
        Fields :=
          if flagValue [] cmd.fields ≠ [] then parseFieldsString (flagValue [] cmd.fields)
          else (optionsFromFile cfg).Fields
        Region :=
          if flagValue [] cmd.region ≠ [] then flagValue [] cmd.region
          else if loadRegionInAwsConfig awsCfg (flagValue "default".toList cmd.profile) ≠ [] then
            loadRegionInAwsConfig awsCfg (flagValue "default".toList cmd.profile)
          else (optionsFromFile cfg).Region
        Credentials :=
          if flagValue [] cmd.creds ≠ [] then flagValue [] cmd.creds
          else (optionsFromFile cfg).Credentials
        Noheader := (optionsFromFile cfg).Noheader || flagValue false cmd.noheader } := by
  by_cases h1 : loadRegionInAwsConfig awsCfg (flagValue "default".toList cmd.profile) = [] <;>
  by_cases h2 : flagValue [] cmd.filters = [] <;>
  by_cases h3 : flagValue [] cmd.tags = [] <;>
  by_cases h4 : flagValue [] cmd.fields = [] <;>
  by_cases h5 : flagValue [] cmd.region = [] <;>
  by_cases h6 : flagValue [] cmd.creds = [] <;>
  simp only [main, hv, h1, h2, h3, h4, h5, h6, ne_eq, not_true_eq_false, not_false_eq_true,
    if_true, if_false, Bool.false_eq_true]

/-- A section whose name has no `.` has no parent section. -/
theorem parentSections_of_not_mem (sname : Str) (h : '.' ∉ sname) : parentSections sname = [] := by
  unfold parentSections
  rw [Split_of_not_mem sname '.' h]
  rfl

/-- For a section name that is not empty and has no `.`, the lookup of the
library is what the file holds under that header. -/
theorem IniFile.value_eq_stored (cfg : IniFile) (sec key : Str) (hne : sec ≠ [])
    (hdot : '.' ∉ sec) : cfg.value sec key = cfg.stored sec key := by
  unfold IniFile.value IniFile.stored IniFile.sectionKeys
  rw [parentSections_of_not_mem sec hdot]
  simp only [List.findSome?_cons, List.findSome?_nil, if_neg hne]
  cases (List.lookup sec cfg).getD [] |>.lookup key <;> rfl

theorem IniFile.value_options (cfg : IniFile) (key : Str) :
    cfg.value "options".toList key = cfg.stored "options".toList key :=
  IniFile.value_eq_stored cfg "options".toList key (by decide) (by decide)

theorem optionsFromFile_Noheader (cfg : Option IniFile) :
    (optionsFromFile cfg).Noheader =
      decide (configValue cfg "noheader".toList = "true".toList) := by
  cases cfg with
  | none => rfl
  | some cfg =>
    show decide (cfg.value "options".toList "noheader".toList = "true".toList) = _
    rw [IniFile.value_options]
    rfl

theorem optionsFromFile_TagFilters (cfg : Option IniFile) :
    (optionsFromFile cfg).TagFilters = parseFilterString (configValue cfg "tags".toList) := by
  cases cfg with
  | none => rfl
  | some cfg =>
    show parseFilterString (cfg.value "options".toList "tags".toList) = _
    rw [IniFile.value_options]
    rfl

theorem GoMap.nodup_keys_set (m : GoMap) (k v : Str) (h : m.keys.Nodup) :
    (m.set k v).keys.Nodup := by
  unfold GoMap.set GoMap.keys
  rw [List.map_cons, List.nodup_cons]
  constructor
  · intro hmem
    obtain ⟨e, he, hk⟩ := List.mem_map.mp hmem
    have := (List.mem_filter.mp he).2
    simp only [ne_eq, decide_not, Bool.not_eq_true', decide_eq_false_iff_not] at this
    exact this hk
  · exact List.Nodup.sublist (List.Sublist.map Prod.fst (List.filter_sublist m)) h

theorem parseFilterEntry_nodup (m : GoMap) (e : Str) (h : m.keys.Nodup) :
    (parseFilterEntry m e).keys.Nodup := by
  by_cases he : ':' ∈ e
  · rw [parseFilterEntry_of_mem m e he]
    exact GoMap.nodup_keys_set m _ _ h
  · rw [parseFilterEntry_of_not_mem m e he]
    exact h

theorem foldl_parseFilterEntry_nodup (es : List Str) (m : GoMap) (h : m.keys.Nodup) :
    (es.foldl parseFilterEntry m).keys.Nodup := by
  induction es generalizing m with
  | nil => exact h
  | cons e es ih => exact ih _ (parseFilterEntry_nodup m e h)

/-- The keys of a parsed filter string are pairwise distinct. -/
theorem parseFilterString_nodup (s : Str) : (parseFilterString s).keys.Nodup :=
  foldl_parseFilterEntry_nodup _ [] List.nodup_nil

theorem GoMap.get?_eq_none_of_not_mem (m : GoMap) (k : Str) (h : k ∉ m.keys) :
    m.get? k = none := by
  cases hg : m.get? k with
  | none => rfl
  | some v => exact absurd ((GoMap.mem_keys_iff m k).mpr ⟨v, hg⟩) h

/-- A lookup in `dst` after the entries of `src` are written into it: the
value of `src` where `src` has the key, else the value of `dst`. -/
theorem mergeInto_get? (dst src : GoMap) (h : src.keys.Nodup) (k : Str) :
    (mergeInto dst src).get? k =
      match src.get? k with
      | some v => some v
      | none => dst.get? k := by
  induction src generalizing dst with
  | nil => rfl
  | cons e rest ih =>
    obtain ⟨a, b⟩ := e
    have hnd : GoMap.keys rest |>.Nodup := (List.nodup_cons.mp h).2
    have ha : a ∉ GoMap.keys rest := (List.nodup_cons.mp h).1
    have hstep : mergeInto dst ((a, b) :: rest) = mergeInto (dst.set a b) rest := rfl
    rw [hstep, ih (dst.set a b) hnd]
    by_cases hk : k = a
    · subst hk
      rw [GoMap.get?_eq_none_of_not_mem rest k ha]
      simp [GoMap.get?, GoMap.get?_set]
    · rw [GoMap.get?_set, if_neg hk]
      simp only [GoMap.get?, hk, if_false]

theorem mergeInto_keys (dst src : GoMap) (k : Str) :
    k ∈ (mergeInto dst src).keys ↔ k ∈ dst.keys ∨ k ∈ src.keys := by
  induction src generalizing dst with
  | nil => simp [mergeInto, GoMap.keys]
  | cons e rest ih =>
    have hstep : mergeInto dst (e :: rest) = mergeInto (dst.set e.1 e.2) rest := rfl
    rw [hstep, ih, GoMap.mem_keys_set]
    have hcons : k ∈ GoMap.keys (e :: rest) ↔ k = e.1 ∨ k ∈ GoMap.keys rest := by
      simp [GoMap.keys]
    rw [hcons]
    tauto

/-! ## Lemmas on `parseFieldsString` -/

theorem foldl_append_singleton (l acc : List Str) :
    l.foldl (fun fields c => fields ++ [c]) acc = acc ++ l := by
  induction l generalizing acc with
  | nil => simp
  | cons c l ih => simp [ih]

/-- There is one segment more than there are separators. -/
theorem Split_length (s : Str) (sep : Char) : (Split s sep).length = s.count sep + 1 := by
  induction s with
  | nil => rfl
  | cons x xs ih =>
    rw [Split_cons]
    by_cases hx : x = sep
    · subst hx
      simp [ih]
    · have hne : (x == sep) = false := by simpa using hx
      rw [if_neg hx, List.length_modifyHead, ih, List.count_cons, hne]
      simp

/-! ## Lemmas on rows and on `Describe` -/

/-- An iteration of the field loop appends to the row it is given. -/
theorem formatField_acc (inst : Instance) (privateIps publicIps : List Str) (tags : GoMap)
    (values : List Str) (c : Str) :
    formatField inst privateIps publicIps tags values c =
      (formatField inst privateIps publicIps tags [] c).map (fun row => values ++ row) := by
  unfold formatField
  split_ifs
  · cases inst.InstanceId <;> simp
  · simp
  · simp
  · cases inst.LaunchTime <;> simp
  · cases inst.State.bind (fun st => st.Name) <;> simp
  · dsimp only
    generalize tags.get? (Join (List.drop 1 (Split c ':')) ":".toList) = g
    cases g <;> simp
  · simp

theorem foldlM_formatField_acc (inst : Instance) (privateIps publicIps : List Str)
    (tags : GoMap) (fields : List Str) (values : List Str) :
    fields.foldlM (formatField inst privateIps publicIps tags) values =
      (fields.foldlM (formatField inst privateIps publicIps tags) []).map
        (fun row => values ++ row) := by
  induction fields generalizing values with
  | nil => simp
  | cons c cs ih =>
    rw [List.foldlM_cons, List.foldlM_cons, formatField_acc inst privateIps publicIps tags values c]
    cases hc : formatField inst privateIps publicIps tags [] c with
    | none => rfl
    | some row =>
      simp only [Option.map_some', Option.some_bind, List.nil_append, Option.bind_eq_bind]
      rw [ih (values ++ row), ih row, Option.map_map]
      congr 1
      funext r
      simp

/-- An iteration of the field loop does not panic on an instance whose
identifier, launch time and state name are present. -/
theorem formatField_present (inst : Instance) (hid : inst.InstanceId.isSome = true)
    (hlt : inst.LaunchTime.isSome = true)
    (hst : (inst.State.bind (fun st => st.Name)).isSome = true)
    (privateIps publicIps : List Str) (tags : GoMap) (c : Str) :
    ∃ row, formatField inst privateIps publicIps tags [] c = some row := by
  obtain ⟨id, hid⟩ := Option.isSome_iff_exists.mp hid
  obtain ⟨t, hlt⟩ := Option.isSome_iff_exists.mp hlt
  obtain ⟨name, hst⟩ := Option.isSome_iff_exists.mp hst
  unfold formatField
  split_ifs
  · exact ⟨[id], by simp [hid]⟩
  · exact ⟨_, rfl⟩
  · exact ⟨_, rfl⟩
  · exact ⟨[t.String], by simp [hlt]⟩
  · exact ⟨[name], by simp [hst]⟩
  · dsimp only
    generalize tags.get? (Join (List.drop 1 (Split c ':')) ":".toList) = g
    cases g with
    | none => exact ⟨_, rfl⟩
    | some v => exact ⟨_, rfl⟩
  · exact ⟨_, rfl⟩

/-- The projection does not panic on an instance whose identifier, launch time
and state name are present. -/
theorem formatInstance_present (inst : Instance) (hid : inst.InstanceId.isSome = true)
    (hlt : inst.LaunchTime.isSome = true)
    (hst : (inst.State.bind (fun st => st.Name)).isSome = true) (fields : List Str) :
    ∃ row, formatInstance inst fields = some row := by
  unfold formatInstance
  simp only []
  induction fields with
  | nil => exact ⟨[], rfl⟩
  | cons c cs ih =>
    obtain ⟨row, hrow⟩ := ih
    obtain ⟨r, hr⟩ := formatField_present inst hid hlt hst
      (fetchIps inst.NetworkInterfaces).1 (fetchIps inst.NetworkInterfaces).2
      (fetchTags inst.Tags) c
    refine ⟨r ++ row, ?_⟩
    rw [List.foldlM_cons, hr]
    simp only [Option.some_bind, Option.bind_eq_bind]
    rw [foldlM_formatField_acc, hrow]
    rfl

theorem exists_rows (fields : List Str) (insts : List Instance)
    (h : ∀ inst ∈ insts, ∃ row, formatInstance inst fields = some row) :
    ∃ rows : List (List Str),
      insts.map (fun inst => formatInstance inst fields) = rows.map some := by
  induction insts with
  | nil => exact ⟨[], rfl⟩
  | cons inst rest ih =>
    obtain ⟨rows, hrows⟩ := ih (fun i hi => h i (List.mem_cons_of_mem _ hi))
    obtain ⟨row, hrow⟩ := h inst (List.mem_cons_self _ _)
    exact ⟨row :: rows, by simp [hrow, hrows]⟩

theorem writeInstances_ok (fields : List Str) (insts : List Instance) (w : List Str)
    (rows : List (List Str))
    (h : insts.map (fun inst => formatInstance inst fields) = rows.map some) :
    writeInstances fields w insts =
      Except.ok (w ++ rows.map (fun values => Join values "\t".toList)) := by
  induction insts generalizing w rows with
  | nil =>
    cases rows with
    | nil => simp [writeInstances]
    | cons r rs => simp at h
  | cons inst rest ih =>
    cases rows with
    | nil => simp at h
    | cons r rs =>
      simp only [List.map_cons, List.cons.injEq] at h
      rw [writeInstances, h.1]
      simp only []
      rw [ih _ rs h.2]
      simp

theorem writeReservations_ok (fields : List Str) (rs : List Reservation) (w : List Str)
    (rows : List (List Str))
    (h : (rs.flatMap (fun r => r.Instances)).map (fun inst => formatInstance inst fields) =
      rows.map some) :
    writeReservations fields w rs =
      Except.ok (w ++ rows.map (fun values => Join values "\t".toList)) := by
  induction rs generalizing w rows with
  | nil =>
    cases rows with
    | nil => simp [writeReservations]
    | cons r rs => simp at h
  | cons r rest ih =>
    rw [List.flatMap_cons, List.map_append] at h
    obtain ⟨rows1, rows2, hrows, h1, h2⟩ := List.map_eq_append_iff.mp h.symm
    subst hrows
    rw [writeReservations, writeInstances_ok fields r.Instances w rows1 h1.symm]
    simp only []
    rw [ih _ rows2 h2.symm]
    simp

theorem foldl_append_term (f : Str × Str → Filter) (l : List (Str × Str))
    (init : DescribeInstancesInput) :
    l.foldl (fun (options : DescribeInstancesInput) kv =>
        ({ options with Filters := options.Filters ++ [f kv] } : DescribeInstancesInput)) init =
      { Filters := init.Filters ++ l.map f } := by
  induction l generalizing init with
  | nil => simp
  | cons kv l ih => simp [ih]

/-! ## The claims -/

/-- C1 (fails on the code): for the instance with one interface whose two
private addresses are `10.0.0.1`, with a public IP, and `10.0.0.2`, the field
`private-ip` yields `10.0.0.1` only: the `break` taken at the first address with
an association ends the loop before the later private addresses are collected,
so the row is not the join of all private IPs, `10.0.0.1,10.0.0.2`. -/
theorem formatInstance_private_ip_stops_at_association :
    allPrivateIps instanceTwoAddresses = ["10.0.0.1".toList, "10.0.0.2".toList] ∧
      formatInstance instanceTwoAddresses ["private-ip".toList] = some ["10.0.0.1".toList] ∧
      formatInstance instanceTwoAddresses ["private-ip".toList] ≠
        some [Join (allPrivateIps instanceTwoAddresses) ",".toList] := by
  decide

/-- C2 (fails on the code): the field name `xtag:Name` is none of the five
keywords and does not start with `tag:`, yet against the tags `{Name: web-1}`
it yields the row `[web-1]` and not the empty row: the pattern `tag:.+` is not
anchored and the key is what follows the first colon. -/
theorem formatInstance_unanchored_tag_pattern :
    isKeyword "xtag:Name".toList = false ∧ isTagField "xtag:Name".toList = false ∧
      formatInstance instanceNamed ["xtag:Name".toList] = some ["web-1".toList] ∧
      formatInstance instanceNamed ["xtag:Name".toList] ≠ some [] := by
  decide

/-- C3 (fails on the code): a config file whose `[options]` section sets
`profile` to `prod`, with a command line that supplies no flag at all, resolves
to the profile `default`, the built-in default of the flag, and not to `prod`:
`main` assigns the flag value to `opt.Profile` whether or not `-profile` occurs. -/
theorem main_profile_overwrites_config_file :
    IniFile.value [("options".toList, [("profile".toList, "prod".toList)])]
        "options".toList "profile".toList = "prod".toList ∧
      (optionsFromFile
        (some [("options".toList, [("profile".toList, "prod".toList)])])).Profile
        = "prod".toList ∧
      (main ⟨none, none, none, none, none, none, none, none⟩
        (some [("options".toList, [("profile".toList, "prod".toList)])]) none).map
          Options.Profile = some "default".toList ∧
      (main ⟨none, none, none, none, none, none, none, none⟩
        (some [("options".toList, [("profile".toList, "prod".toList)])]) none).map
          Options.Profile ≠ some "prod".toList := by
  decide

/-- C4: for a non-empty list of pairs `(k, v)` with pairwise distinct keys, no
key containing `,` or `:` and no value containing `,`, parsing the entries
`k:v` joined by `,` gives the map that sends each `k` to its `v` and holds no
other key. -/
theorem parseFilterString_roundtrip (pairs : List (Str × Str)) (hne : pairs ≠ [])
    (hnd : (pairs.map Prod.fst).Nodup)
    (hk : ∀ p ∈ pairs, ',' ∉ p.1 ∧ ':' ∉ p.1) (hv : ∀ p ∈ pairs, ',' ∉ p.2) :
    (∀ p ∈ pairs,
      (parseFilterString (Join (pairs.map (fun p => p.1 ++ ":".toList ++ p.2)) ",".toList)).get?
        p.1 = some p.2) ∧
    (∀ k, k ∉ pairs.map Prod.fst →
      (parseFilterString (Join (pairs.map (fun p => p.1 ++ ":".toList ++ p.2)) ",".toList)).get?
        k = none) := by
  have hsplit : Split (Join (pairs.map (fun p => p.1 ++ ":".toList ++ p.2)) ",".toList) ','
      = pairs.map (fun p => p.1 ++ ":".toList ++ p.2) := by
    apply Split_Join
    · intro l hl
      obtain ⟨p, hp, rfl⟩ := List.mem_map.mp hl
      have h1 := (hk p hp).1
      have h2 := hv p hp
      simp [h1, h2]
    · simpa using hne
  have hparse : parseFilterString
      (Join (pairs.map (fun p => p.1 ++ ":".toList ++ p.2)) ",".toList)
      = pairs.foldl (fun m e => GoMap.set m e.1 e.2) [] := by
    unfold parseFilterString
    rw [hsplit]
    exact foldl_parseFilterEntry_pairs pairs [] (fun p hp => (hk p hp).2)
  rw [hparse]
  refine ⟨fun p hp => foldl_set_get?_of_mem pairs [] hnd p hp, fun k hkn => ?_⟩
  rw [foldl_set_get?_of_not_mem pairs [] k
    (fun p hp h => hkn (h ▸ List.mem_map_of_mem Prod.fst hp))]
  rfl

/-- C4, at the inputs `a:1,b:2` and `k:a:b`. -/
theorem parseFilterString_roundtrip_witness :
    ((parseFilterString "a:1,b:2".toList).get? "a".toList = some "1".toList ∧
      (parseFilterString "a:1,b:2".toList).get? "b".toList = some "2".toList ∧
      (parseFilterString "a:1,b:2".toList).get? "c".toList = none) ∧
    (parseFilterString "k:a:b".toList).get? "k".toList = some "a:b".toList := by
  have h1 := parseFilterString_roundtrip
    [("a".toList, "1".toList), ("b".toList, "2".toList)]
    (by decide) (by decide) (by decide) (by decide)
  have h2 := parseFilterString_roundtrip [("k".toList, "a:b".toList)]
    (by decide) (by decide) (by decide) (by decide)
  exact ⟨⟨h1.1 ("a".toList, "1".toList) (by decide), h1.1 ("b".toList, "2".toList) (by decide),
    h1.2 "c".toList (by decide)⟩, h2.1 ("k".toList, "a:b".toList) (by decide)⟩

/-- C5: the keys of `parseFilterString s` are the prefixes before the first `:`
of the comma-separated entries of `s` that contain a `:`, and only those; a
string without any `:` parses to the empty map. -/
theorem parseFilterString_keys (s : Str) :
    (∀ k, k ∈ (parseFilterString s).keys ↔
      ∃ e ∈ Split s ',', ':' ∈ e ∧ k = e.takeWhile (fun c => decide (c ≠ ':'))) ∧
    (':' ∉ s → parseFilterString s = []) := by
  have hkeys : ∀ k, k ∈ (parseFilterString s).keys ↔
      ∃ e ∈ Split s ',', ':' ∈ e ∧ k = e.takeWhile (fun c => decide (c ≠ ':')) := by
    intro k
    unfold parseFilterString
    rw [foldl_parseFilterEntry_keys]
    simp [GoMap.keys]
  refine ⟨hkeys, fun hs => ?_⟩
  cases hm : parseFilterString s with
  | nil => rfl
  | cons e m =>
    have hmem : e.1 ∈ (parseFilterString s).keys := by
      rw [hm]
      exact List.mem_cons_self _ _
    obtain ⟨e', he', hc, _⟩ := (hkeys e.1).mp hmem
    exact absurd (mem_of_mem_Split s ',' e' ':' he' hc) hs

/-- C5, at the inputs `c` and the empty string. -/
theorem parseFilterString_keys_witness :
    (':' ∉ "c".toList ∧ parseFilterString "c".toList = []) ∧ parseFilterString [] = [] :=
  ⟨⟨by decide, (parseFilterString_keys "c".toList).2 (by decide)⟩,
    (parseFilterString_keys []).2 (by decide)⟩

/-- C6: when `Fields` is missing, empty or has one entry, `FieldNames()` is the
default list `tag:Name, instance-id, private-ip, public-ip, instance-state`;
and `FieldNames()` is never empty. -/
theorem FieldNames_default (o : Options) :
    (o.Fields.length ≤ 1 →
      o.FieldNames = ["tag:Name".toList, "instance-id".toList, "private-ip".toList,
        "public-ip".toList, "instance-state".toList]) ∧
    o.FieldNames ≠ [] ∧ 1 < o.FieldNames.length := by
  unfold Options.FieldNames
  by_cases h : o.Fields.length > 1
  · rw [if_pos h]
    refine ⟨fun h' => by omega, fun h0 => ?_, h⟩
    rw [h0] at h
    simp at h
  · rw [if_neg h]
    exact ⟨fun _ => rfl, by decide, by decide⟩

/-- C6, at an `Options` value with the single field `instance-id`. -/
theorem FieldNames_default_witness :
    Options.FieldNames { NewOptions with Fields := ["instance-id".toList] } =
      ["tag:Name".toList, "instance-id".toList, "private-ip".toList,
        "public-ip".toList, "instance-state".toList] :=
  (FieldNames_default { NewOptions with Fields := ["instance-id".toList] }).1 (by decide)

/-- C7: for a tag key that is not empty and does not start with a newline
(colons inside the key allowed), the one-field projection of `tag:` followed by
the key is the one-element row `[v]` when the instance carries a tag with that
key and value `v`, and the empty row when it carries no tag with that key.  The
tag the instance carries for a key is the last one of its tag list with that
key; when the keys of the list are pairwise distinct it is any tag of the list. -/
theorem formatInstance_tag (inst : Instance) (key : Str) (hne : key ≠ [])
    (hnl : key.head? ≠ some '\n') :
    (∀ v pre post, inst.Tags = pre ++ ⟨key, v⟩ :: post → (∀ t ∈ post, t.Key ≠ key) →
      formatInstance inst ["tag:".toList ++ key] = some [v]) ∧
    (∀ v, (inst.Tags.map Tag.Key).Nodup → ⟨key, v⟩ ∈ inst.Tags →
      formatInstance inst ["tag:".toList ++ key] = some [v]) ∧
    ((∀ t ∈ inst.Tags, t.Key ≠ key) →
      formatInstance inst ["tag:".toList ++ key] = some []) := by
  have hlast : ∀ v pre post, inst.Tags = pre ++ ⟨key, v⟩ :: post →
      (∀ t ∈ post, t.Key ≠ key) →
      formatInstance inst ["tag:".toList ++ key] = some [v] := by
    intro v pre post htags hpost
    have hget : (fetchTags inst.Tags).get? key = some v := by
      rw [fetchTags_eq, htags, List.map_append, List.map_cons]
      apply foldl_set_get?_last
      intro p hp
      obtain ⟨t, ht, rfl⟩ := List.mem_map.mp hp
      exact hpost t ht
    rw [formatInstance_single, formatField_tag inst _ _ _ _ key hne hnl, hget]
    rfl
  refine ⟨hlast, ?_, ?_⟩
  · intro v hnd hmem
    obtain ⟨pre, post, htags⟩ := List.append_of_mem hmem
    refine hlast v pre post htags ?_
    intro t ht hkey
    rw [htags, List.map_append, List.map_cons, List.nodup_append] at hnd
    exact (List.nodup_cons.mp hnd.2.1).1 (List.mem_map.mpr ⟨t, ht, hkey⟩)
  · intro hnone
    have hget : (fetchTags inst.Tags).get? key = none := by
      rw [fetchTags_eq, foldl_set_get?_of_not_mem]
      · rfl
      · intro p hp
        obtain ⟨t, ht, rfl⟩ := List.mem_map.mp hp
        exact hnone t ht
    rw [formatInstance_single, formatField_tag inst _ _ _ _ key hne hnl, hget]

/-- C7, at the field `tag:Name`: against the tags `{Name: web-1}` the row is
`[web-1]`; against an instance without the tag `Name` it is empty. -/
theorem formatInstance_tag_witness :
    formatInstance instanceNamed ["tag:Name".toList] = some ["web-1".toList] ∧
      formatInstance instanceTwoAddresses ["tag:Name".toList] = some [] :=
  ⟨(formatInstance_tag instanceNamed "Name".toList (by decide) (by decide)).1
      "web-1".toList [] [] rfl (by decide),
    (formatInstance_tag instanceTwoAddresses "Name".toList (by decide) (by decide)).2.2
      (by decide)⟩

/-- C8 (fails on the code): the instance carries the tag key made of a newline
and `x`, and the field list is the single tag reference `tag:` followed by that
key, yet the row is empty, one entry short of the field list: in the pattern
`tag:.+` the `.` does not match a newline, so the field is taken for an unknown
one. -/
theorem formatInstance_newline_key_dropped :
    isTagField ("tag:".toList ++ "\nx".toList) = true ∧
      (fetchTags instanceNewlineKey.Tags).get? "\nx".toList = some "v".toList ∧
      instanceNewlineKey.InstanceId.isSome = true ∧
      instanceNewlineKey.LaunchTime.isSome = true ∧
      (instanceNewlineKey.State.bind (fun st => st.Name)).isSome = true ∧
      formatInstance instanceNewlineKey ["tag:".toList ++ "\nx".toList] = some [] ∧
      (formatInstance instanceNewlineKey ["tag:".toList ++ "\nx".toList]).map List.length ≠
        some ["tag:".toList ++ "\nx".toList].length := by
  decide

/-- C9: the field `public-ip` yields the comma-joined list, in interface order,
of the public IP of the first private address with an association of each
interface that has one; an interface without any association adds nothing, so
there is at most one public IP per interface. -/
theorem formatInstance_public_ip (inst : Instance) :
    formatInstance inst ["public-ip".toList] =
        some [Join (inst.NetworkInterfaces.filterMap firstPublicIp) ",".toList] ∧
      (inst.NetworkInterfaces.filterMap firstPublicIp).length ≤
        inst.NetworkInterfaces.length := by
  refine ⟨?_, List.length_filterMap_le _ _⟩
  rw [formatInstance_single, formatField_public_ip, fetchIps_eq]
  rfl

/-- C10: when every network interface has exactly one private address and that
address has a public IP, the fields `private-ip, public-ip` yield the
two-element row of the private IPs joined by `,` and the public IPs joined by
`,`, both in interface order. -/
theorem formatInstance_private_public (inst : Instance)
    (h : ∀ nic ∈ inst.NetworkInterfaces, ∃ a assoc,
      nic.PrivateIpAddresses = [a] ∧ a.Association = some assoc) :
    formatInstance inst ["private-ip".toList, "public-ip".toList] =
      some [Join (allPrivateIps inst) ",".toList, Join (allPublicIps inst) ",".toList] := by
  have hpriv : inst.NetworkInterfaces.flatMap
      (fun nic => privateIpsUpToAssociation nic.PrivateIpAddresses) = allPrivateIps inst := by
    unfold allPrivateIps
    apply List.flatMap_congr
    intro nic hnic
    obtain ⟨a, assoc, ha, hassoc⟩ := h nic hnic
    simp [ha, privateIpsUpToAssociation, hassoc]
  have hpub : inst.NetworkInterfaces.filterMap firstPublicIp = allPublicIps inst := by
    unfold allPublicIps
    rw [List.filterMap_eq_flatMap_toList]
    apply List.flatMap_congr
    intro nic hnic
    obtain ⟨a, assoc, ha, hassoc⟩ := h nic hnic
    simp [ha, firstPublicIp, hassoc]
  simp only [formatInstance, List.foldlM_cons, List.foldlM_nil, formatField_private_ip,
    formatField_public_ip, fetchIps_eq, hpriv, hpub]
  rfl

/-- C10, at two interfaces `ip1`/`pub1` and `ip2`/`pub2`: the row is
`[ip1,ip2, pub1,pub2]`. -/
theorem formatInstance_private_public_witness :
    formatInstance instanceTwoInterfaces ["private-ip".toList, "public-ip".toList] =
      some ["ip1,ip2".toList, "pub1,pub2".toList] :=
  formatInstance_private_public instanceTwoInterfaces (by
    intro nic hnic
    simp only [instanceTwoInterfaces, List.mem_cons, List.mem_singleton, List.not_mem_nil,
      or_false] at hnic
    rcases hnic with rfl | rfl
    · exact ⟨_, _, rfl, rfl⟩
    · exact ⟨_, _, rfl, rfl⟩)

/-- C11: when the credentials resolve and the provider answers with at least
one reservation, the lines `Describe` writes are the header line, the field
names upper-cased and joined by tab, present exactly when `Noheader` is false,
followed by one line per instance in reservation order and then instance
order, the row `formatInstance` gives for the instance and `FieldNames()`
joined by tab; the sink is flushed and `Describe` returns nil.  The rows exist
as soon as the identifier, launch time and state name of every instance are
present. -/
theorem Describe_writes_table (rt : Runtime) (o : Options) (credentials : Credentials)
    (resp : DescribeInstancesOutput)
    (hcreds : rt.SelectCredentials o.Credentials o.Profile = Except.ok credentials)
    (hresp : rt.DescribeInstances o.Region credentials (describeInput rt o) = Except.ok resp)
    (hne : resp.Reservations ≠ []) :
    (∀ rows : List (List Str),
      (allInstances resp).map (fun inst => formatInstance inst o.FieldNames) = rows.map some →
      Describe rt o =
        { written :=
            (if o.Noheader = false then [Join (o.FieldNames.map rt.ToUpper) "\t".toList]
              else []) ++ rows.map (fun values => Join values "\t".toList)
          flushed := true
          outcome := Outcome.returned none }) ∧
    ((∀ inst ∈ allInstances resp, inst.InstanceId.isSome = true ∧
        inst.LaunchTime.isSome = true ∧
        (inst.State.bind (fun st => st.Name)).isSome = true) →
      ∃ rows : List (List Str),
        (allInstances resp).map (fun inst => formatInstance inst o.FieldNames) = rows.map some ∧
        Describe rt o =
          { written :=
              (if o.Noheader = false then [Join (o.FieldNames.map rt.ToUpper) "\t".toList]
                else []) ++ rows.map (fun values => Join values "\t".toList)
            flushed := true
            outcome := Outcome.returned none }) := by
  have hlen : ¬ resp.Reservations.length = 0 := fun h => hne (List.length_eq_zero.mp h)
  have hmain : ∀ rows : List (List Str),
      (allInstances resp).map (fun inst => formatInstance inst o.FieldNames) = rows.map some →
      Describe rt o =
        { written :=
            (if o.Noheader = false then [Join (o.FieldNames.map rt.ToUpper) "\t".toList]
              else []) ++ rows.map (fun values => Join values "\t".toList)
          flushed := true
          outcome := Outcome.returned none } := by
    intro rows hrows
    unfold Describe
    simp only [hcreds, hresp, hlen, if_false]
    rw [writeReservations_ok o.FieldNames resp.Reservations _ rows hrows]
    rfl
  refine ⟨hmain, fun hpresent => ?_⟩
  obtain ⟨rows, hrows⟩ := exists_rows o.FieldNames (allInstances resp)
    (fun inst hinst => formatInstance_present inst (hpresent inst hinst).1
      (hpresent inst hinst).2.1 (hpresent inst hinst).2.2 o.FieldNames)
  exact ⟨rows, hrows, hmain rows hrows⟩

/-- C11, at a response of two reservations with one instance each and the
default fields: a header line and two rows, the second one entry short for
want of a `Name` tag. -/
theorem Describe_writes_table_witness :
    Describe (runtimeAnswering responseTwoReservations) NewOptions =
      { written :=
          ["TAG:NAME\tINSTANCE-ID\tPRIVATE-IP\tPUBLIC-IP\tINSTANCE-STATE".toList,
            "web-1\ti-1\t\t\trunning".toList, "i-2\tip1,ip2\tpub1,pub2\trunning".toList]
        flushed := true
        outcome := Outcome.returned none } :=
  (Describe_writes_table (runtimeAnswering responseTwoReservations) NewOptions ⟨[]⟩
    responseTwoReservations rfl rfl (by decide)).1
    [["web-1".toList, "i-1".toList, [], [], "running".toList],
      ["i-2".toList, "ip1,ip2".toList, "pub1,pub2".toList, "running".toList]] (by decide)

/-- C12: when the credentials resolve and the provider answers with zero
reservations, `Describe` returns the error `Not Found` and writes no line, with
the header enabled or not. -/
theorem Describe_not_found (rt : Runtime) (o : Options) (credentials : Credentials)
    (resp : DescribeInstancesOutput)
    (hcreds : rt.SelectCredentials o.Credentials o.Profile = Except.ok credentials)
    (hresp : rt.DescribeInstances o.Region credentials (describeInput rt o) = Except.ok resp)
    (hzero : resp.Reservations = []) :
    Describe rt o =
      { written := [], flushed := false,
        outcome := Outcome.returned (some "Not Found".toList) } := by
  unfold Describe
  simp [hcreds, hresp, hzero]

/-- C12, at the empty response, with the header enabled and with it suppressed. -/
theorem Describe_not_found_witness :
    Describe (runtimeAnswering ⟨[]⟩) NewOptions =
        { written := [], flushed := false,
          outcome := Outcome.returned (some "Not Found".toList) } ∧
      Describe (runtimeAnswering ⟨[]⟩) { NewOptions with Noheader := true } =
        { written := [], flushed := false,
          outcome := Outcome.returned (some "Not Found".toList) } :=
  ⟨Describe_not_found (runtimeAnswering ⟨[]⟩) NewOptions ⟨[]⟩ ⟨[]⟩ rfl rfl rfl,
    Describe_not_found (runtimeAnswering ⟨[]⟩) { NewOptions with Noheader := true } ⟨[]⟩ ⟨[]⟩
      rfl rfl rfl⟩

/-- The filter terms of the request built at client.go:75-87 are, up to their
order, one term `(k, [v])` per entry `(k, v)` of `Filters` and one term
`(tag:k, [v])` per entry `(k, v)` of `TagFilters`. -/
theorem describeInput_filters (rt : Runtime) (o : Options) :
    (describeInput rt o).Filters.Perm
        (o.Filters.map (fun kv => ({ Name := kv.1, Values := [kv.2] } : Filter)) ++
          o.TagFilters.map
            (fun kv => ({ Name := "tag:".toList ++ kv.1, Values := [kv.2] } : Filter))) ∧
      (describeInput rt o).Filters.length = o.Filters.length + o.TagFilters.length := by
  have hperm : (describeInput rt o).Filters.Perm
      (o.Filters.map (fun kv => ({ Name := kv.1, Values := [kv.2] } : Filter)) ++
        o.TagFilters.map
          (fun kv => ({ Name := "tag:".toList ++ kv.1, Values := [kv.2] } : Filter))) := by
    unfold describeInput
    simp only []
    rw [foldl_append_term (fun kv => ({ Name := kv.1, Values := [kv.2] } : Filter)),
      foldl_append_term
        (fun kv => ({ Name := "tag:".toList ++ kv.1, Values := [kv.2] } : Filter))]
    simp only [List.nil_append]
    exact List.Perm.append ((rt.rangeOrder_perm o.Filters).map _)
      ((rt.rangeOrder_perm o.TagFilters).map _)
  refine ⟨hperm, ?_⟩
  rw [hperm.length_eq]
  simp

/-- C13: unless `-v` ends the run, the resolved `Noheader` is true exactly when
the `noheader` value of the config file is the string `true` or the flag
`-noheader` is supplied (which sets it to true; `-noheader=false` leaves it
false): the boolean OR of the config file and the command line. -/
theorem main_noheader (cmd : CmdLine) (cfg awsCfg : Option IniFile)
    (hv : flagValue false cmd.v = false) :
    ∃ opt, main cmd cfg awsCfg = some opt ∧
      opt.Noheader =
        (decide (configValue cfg "noheader".toList = "true".toList) ||
          flagValue false cmd.noheader) ∧
      (opt.Noheader = true ↔
        configValue cfg "noheader".toList = "true".toList ∨ cmd.noheader = some true) := by
  refine ⟨_, main_eq cmd cfg awsCfg hv, ?_, ?_⟩
  · simp only [optionsFromFile_Noheader]
  · simp only [optionsFromFile_Noheader, Bool.or_eq_true, decide_eq_true_eq]
    cases h : cmd.noheader with
    | none => simp [flagValue]
    | some b => simp [flagValue]

/-- C13, at a config file with `noheader = true` and a command line without
any flag: the header is still suppressed. -/
theorem main_noheader_witness :
    (main noFlags (some configSample) none).map Options.Noheader = some true := by
  obtain ⟨opt, hopt, _, hiff⟩ := main_noheader noFlags (some configSample) none (by decide)
  rw [hopt]
  exact congrArg some (hiff.mpr (Or.inl (by decide)))

/-- The projection of `tag:` followed by a key yields the value of the last tag
with that key, for a key that is not empty and does not start with a newline. -/
theorem formatInstance_tag_of_last (inst : Instance) (key v : Str) (pre post : List Tag)
    (hne : key ≠ []) (hnl : key.head? ≠ some '\n')
    (htags : inst.Tags = pre ++ ⟨key, v⟩ :: post) (hpost : ∀ t ∈ post, t.Key ≠ key) :
    formatInstance inst ["tag:".toList ++ key] = some [v] := by
  have hget : (fetchTags inst.Tags).get? key = some v := by
    rw [fetchTags_eq, htags, List.map_append, List.map_cons]
    apply foldl_set_get?_last
    intro p hp
    obtain ⟨t, ht, rfl⟩ := List.mem_map.mp hp
    exact hpost t ht
  rw [formatInstance_single, formatField_tag inst _ _ _ _ key hne hnl, hget]
  rfl

/-- The last element that satisfies `p` splits the list around it. -/
theorem exists_split_of_getLast?_filter (p : Tag → Bool) (l : List Tag) (t : Tag)
    (h : (l.filter p).getLast? = some t) :
    ∃ pre post, l = pre ++ t :: post ∧ p t = true ∧ ∀ u ∈ post, p u = false := by
  induction l with
  | nil => simp at h
  | cons x xs ih =>
    cases hxs : (xs.filter p).getLast? with
    | some t' =>
      have hne : xs.filter p ≠ [] := by
        intro h0
        rw [h0] at hxs
        simp at hxs
      have hlast : ((x :: xs).filter p).getLast? = some t' := by
        by_cases hx : p x = true
        · rw [List.filter_cons_of_pos hx]
          obtain ⟨y, ys, hy⟩ := List.exists_cons_of_ne_nil hne
          rw [hy] at hxs ⊢
          rw [List.getLast?_cons_cons]
          exact hxs
        · rw [List.filter_cons_of_neg hx]
          exact hxs
      have htt : t' = t := Option.some.inj (hlast.symm.trans h)
      subst htt
      obtain ⟨pre, post, hl, hp, hpost⟩ := ih hxs
      exact ⟨x :: pre, post, by rw [hl]; rfl, hp, hpost⟩
    | none =>
      have hnil : xs.filter p = [] := by
        cases hf : xs.filter p with
        | nil => rfl
        | cons y ys =>
          rw [hf] at hxs
          have := List.getLast?_isSome.mpr (List.cons_ne_nil y ys)
          rw [hxs] at this
          simp at this
      have hx : p x = true := by
        by_contra hx
        rw [List.filter_cons_of_neg hx, hnil] at h
        simp at h
      rw [List.filter_cons_of_pos hx, hnil] at h
      have hxt : x = t := by simpa using h
      subst hxt
      refine ⟨[], xs, rfl, hx, fun u hu => ?_⟩
      by_contra hu'
      have : u ∈ xs.filter p := List.mem_filter.mpr ⟨hu, by simpa using hu'⟩
      rw [hnil] at this
      exact absurd this (List.not_mem_nil u)

/-- C16 (fails as stated): a tag list that holds the empty key twice, projected
on `tag:` followed by that key, yields the empty row and not the value of the
last tag, because the pattern `tag:.+` asks for a character after `tag:`; the
same happens for a key, held twice, that starts with a newline. -/
theorem formatInstance_duplicate_key_without_entry :
    (1 < (instanceEmptyKeyTwice.Tags.filter (fun t => decide (t.Key = []))).length ∧
      (instanceEmptyKeyTwice.Tags.filter (fun t => decide (t.Key = []))).getLast? =
        some ⟨[], "b".toList⟩ ∧
      formatInstance instanceEmptyKeyTwice ["tag:".toList ++ []] = some [] ∧
      formatInstance instanceEmptyKeyTwice ["tag:".toList ++ []] ≠ some ["b".toList]) ∧
    (1 < (instanceNewlineKeyTwice.Tags.filter
        (fun t => decide (t.Key = "\nx".toList))).length ∧
      formatInstance instanceNewlineKeyTwice ["tag:".toList ++ "\nx".toList] = some [] ∧
      formatInstance instanceNewlineKeyTwice ["tag:".toList ++ "\nx".toList] ≠
        some ["b".toList]) := by
  decide

/-- C16 (amended): for a key `k` that is not empty and does not start with a
newline, and an instance whose tag list holds `k` more than once, the
projection of `tag:` followed by `k` has exactly one entry, the value of the
last tag of the list whose key is `k`. -/
theorem formatInstance_tag_last_wins (inst : Instance) (k : Str) (hne : k ≠ [])
    (hnl : k.head? ≠ some '\n')
    (hdup : 1 < (inst.Tags.filter (fun t => decide (t.Key = k))).length) :
    ∃ t, (inst.Tags.filter (fun t => decide (t.Key = k))).getLast? = some t ∧
      formatInstance inst ["tag:".toList ++ k] = some [t.Value] := by
  have hnonempty : inst.Tags.filter (fun t => decide (t.Key = k)) ≠ [] := by
    intro h0
    rw [h0] at hdup
    simp at hdup
  obtain ⟨t, ht⟩ := Option.isSome_iff_exists.mp (List.getLast?_isSome.mpr hnonempty)
  obtain ⟨pre, post, htags, hkey, hpost⟩ :=
    exists_split_of_getLast?_filter (fun t => decide (t.Key = k)) inst.Tags t ht
  have hk : t.Key = k := by simpa using hkey
  refine ⟨t, ht, formatInstance_tag_of_last inst k t.Value pre post hne hnl ?_ ?_⟩
  · rw [htags, ← hk]
  · intro u hu
    have := hpost u hu
    simpa using this

/-- C16 (amended), at the tags `Name = old, Name = new`: the row is `[new]`. -/
theorem formatInstance_tag_last_wins_witness :
    formatInstance instanceNameTwice ["tag:Name".toList] = some ["new".toList] := by
  obtain ⟨t, ht, hrow⟩ := formatInstance_tag_last_wins instanceNameTwice "Name".toList
    (by decide) (by decide) (by decide)
  have htag : t = ⟨"Name".toList, "new".toList⟩ := by
    have hlast : (instanceNameTwice.Tags.filter
        (fun t => decide (t.Key = "Name".toList))).getLast? =
        some ⟨"Name".toList, "new".toList⟩ := by decide
    exact Option.some.inj (ht.symm.trans hlast)
  rw [htag] at hrow
  exact hrow

/-- C17: `parseFieldsString s` is the list of the comma-separated segments of
`s`, in order, untrimmed and with repetitions kept: joining it with `,` gives
back `s`, and it has one entry more than `s` has commas; the empty string gives
the one-element list of the empty string. -/
theorem parseFieldsString_segments (s : Str) :
    parseFieldsString s = Split s ',' ∧
      Join (parseFieldsString s) ",".toList = s ∧
      (parseFieldsString s).length = s.count ',' + 1 ∧
      parseFieldsString [] = [[]] ∧
      parseFieldsString " a,b ,a".toList = [" a".toList, "b ".toList, "a".toList] := by
  have h : parseFieldsString s = Split s ',' := by
    unfold parseFieldsString
    rw [foldl_append_singleton]
    rfl
  refine ⟨h, ?_, ?_, by decide, by decide⟩
  · rw [h]
    exact Join_Split s ','
  · rw [h]
    exact Split_length s ','

/-- C18: the projection of the field list `f ++ g` is the projection of `f`
followed by the projection of `g`; it panics exactly when one of the two does. -/
theorem formatInstance_append (inst : Instance) (f g : List Str) :
    formatInstance inst (f ++ g) =
        (formatInstance inst f).bind
          (fun a => (formatInstance inst g).map (fun b => a ++ b)) ∧
      (∀ a b, formatInstance inst f = some a → formatInstance inst g = some b →
        formatInstance inst (f ++ g) = some (a ++ b)) := by
  have h : formatInstance inst (f ++ g) =
      (formatInstance inst f).bind
        (fun a => (formatInstance inst g).map (fun b => a ++ b)) := by
    unfold formatInstance
    simp only []
    rw [List.foldlM_append]
    cases hf : List.foldlM (formatField inst (fetchIps inst.NetworkInterfaces).1
        (fetchIps inst.NetworkInterfaces).2 (fetchTags inst.Tags)) [] f with
    | none => rfl
    | some a =>
      simp only [Option.some_bind, Option.bind_eq_bind]
      exact foldlM_formatField_acc inst _ _ _ g a
  refine ⟨h, fun a b ha hb => ?_⟩
  rw [h, ha, hb]
  rfl

/-- C18, at the instance named `web-1` and the field lists `tag:Name, bogus` and
`instance-id`: the rows `[web-1]` and `[i-1]` give the row `[web-1, i-1]`. -/
theorem formatInstance_append_witness :
    formatInstance instanceNamed
        (["tag:Name".toList, "bogus".toList] ++ ["instance-id".toList]) =
      some (["web-1".toList] ++ ["i-1".toList]) :=
  (formatInstance_append instanceNamed ["tag:Name".toList, "bogus".toList]
    ["instance-id".toList]).2 ["web-1".toList] ["i-1".toList] (by decide) (by decide)

/-- C19: unless `-v` ends the run, with a non-empty `-tags` string the resolved
tag filters have as keys the keys of the parsed config-file `tags` string
together with the keys of the parsed `-tags` string, hold the value of the flag
on every key of the flag and the value of the config file on every other key;
with `-tags` absent or empty they are the parsed config-file `tags` string. -/
theorem main_tag_filters (cmd : CmdLine) (cfg awsCfg : Option IniFile)
    (hv : flagValue false cmd.v = false) :
    ∃ opt, main cmd cfg awsCfg = some opt ∧
      (flagValue [] cmd.tags ≠ [] →
        (∀ k, k ∈ opt.TagFilters.keys ↔
          k ∈ (parseFilterString (configValue cfg "tags".toList)).keys ∨
            k ∈ (parseFilterString (flagValue [] cmd.tags)).keys) ∧
        (∀ k v, (parseFilterString (flagValue [] cmd.tags)).get? k = some v →
          opt.TagFilters.get? k = some v) ∧
        (∀ k, k ∉ (parseFilterString (flagValue [] cmd.tags)).keys →
          opt.TagFilters.get? k =
            (parseFilterString (configValue cfg "tags".toList)).get? k)) ∧
      (flagValue [] cmd.tags = [] →
        opt.TagFilters = parseFilterString (configValue cfg "tags".toList)) := by
  refine ⟨_, main_eq cmd cfg awsCfg hv, fun hf => ?_, fun hf => ?_⟩
  · simp only [hf, ne_eq, not_false_eq_true, if_true, optionsFromFile_TagFilters]
    refine ⟨fun k => mergeInto_keys _ _ k, fun k v hkv => ?_, fun k hk => ?_⟩
    · rw [mergeInto_get? _ _ (parseFilterString_nodup _) k, hkv]
    · rw [mergeInto_get? _ _ (parseFilterString_nodup _) k,
        GoMap.get?_eq_none_of_not_mem _ k hk]
  · simp only [hf, ne_eq, not_true_eq_false, if_false, optionsFromFile_TagFilters]

/-- C19, at the config-file tags `a:1,b:2` and the flag `-tags b:3,c:4`: the
resolved tag filters send `a` to `1`, `b` to `3` and `c` to `4`. -/
theorem main_tag_filters_witness :
    ∃ opt, main { noFlags with tags := some "b:3,c:4".toList } (some configSample) none =
        some opt ∧
      opt.TagFilters.get? "a".toList = some "1".toList ∧
      opt.TagFilters.get? "b".toList = some "3".toList ∧
      opt.TagFilters.get? "c".toList = some "4".toList ∧
      opt.TagFilters.get? "d".toList = none := by
  obtain ⟨opt, hopt, hmerge, _⟩ := main_tag_filters
    { noFlags with tags := some "b:3,c:4".toList } (some configSample) none (by decide)
  obtain ⟨_, hflag, hfile⟩ := hmerge (by decide)
  refine ⟨opt, hopt, ?_, hflag _ _ (by decide), hflag _ _ (by decide), ?_⟩
  · rw [hfile "a".toList (by decide)]
    decide
  · rw [hfile "d".toList (by decide)]
    decide

/-- C15: once the credentials resolve, the request `Describe` sends the
provider has as filter terms, up to their order, one term `(k, [v])` per entry
`(k, v)` of `Filters` and one term `(tag:k, [v])` per entry `(k, v)` of
`TagFilters`, and nothing else, as many terms as the two maps have entries.
That this is the request sent shows in what `Describe` does with the answer:
an error the provider gives to this request is what `Describe` returns, and a
provider that differs only in its answers to other requests changes nothing. -/
theorem Describe_sends_filters (rt : Runtime) (o : Options) (credentials : Credentials)
    (hcreds : rt.SelectCredentials o.Credentials o.Profile = Except.ok credentials) :
    (describeInput rt o).Filters.Perm
        (o.Filters.map (fun kv => ({ Name := kv.1, Values := [kv.2] } : Filter)) ++
          o.TagFilters.map
            (fun kv => ({ Name := "tag:".toList ++ kv.1, Values := [kv.2] } : Filter))) ∧
      (describeInput rt o).Filters.length = o.Filters.length + o.TagFilters.length ∧
      (∀ err,
        rt.DescribeInstances o.Region credentials (describeInput rt o) = Except.error err →
        Describe rt o =
          { written := [], flushed := false, outcome := Outcome.returned (some err) }) ∧
      (∀ rt' : Runtime, rt'.SelectCredentials = rt.SelectCredentials →
        rt'.ToUpper = rt.ToUpper → rt'.rangeOrder = rt.rangeOrder →
        rt'.DescribeInstances o.Region credentials (describeInput rt o) =
          rt.DescribeInstances o.Region credentials (describeInput rt o) →
        Describe rt' o = Describe rt o) := by
  refine ⟨(describeInput_filters rt o).1, (describeInput_filters rt o).2,
    fun err herr => ?_, fun rt' hsel hup hrange hanswer => ?_⟩
  · unfold Describe
    simp only [hcreds, herr]
  · have hinput : describeInput rt' o = describeInput rt o := by
      unfold describeInput
      rw [hrange]
    have hcreds' : rt'.SelectCredentials o.Credentials o.Profile = Except.ok credentials := by
      rw [hsel, hcreds]
    unfold Describe
    simp only [hcreds, hcreds', hinput, hanswer, namesToUpper, hup]

/-- C15, at the filters `instance-type = t2.micro` and the tag filters
`Name = web`, with a provider that refuses every request and names its filter
terms in the error: `Describe` returns the error that names the two terms. -/
theorem Describe_sends_filters_witness :
    Describe runtimeRefusing
        { NewOptions with
          Filters := [("instance-type".toList, "t2.micro".toList)]
          TagFilters := [("Name".toList, "web".toList)] } =
      { written := [], flushed := false,
        outcome := Outcome.returned (some "instance-type=t2.micro,tag:Name=web".toList) } :=
  (Describe_sends_filters runtimeRefusing
    { NewOptions with
      Filters := [("instance-type".toList, "t2.micro".toList)]
      TagFilters := [("Name".toList, "web".toList)] } ⟨[]⟩ rfl).2.2.1 _ rfl

end Ec2LsHosts
